import Mathlib

/-
Verification development for `generate_icon.py`: a script that procedurally
draws a strawberry icon (tapered-ellipse body, two leaves, a stem rectangle,
eight seed ellipses) onto a 1024x1024 RGBA canvas and writes it to a PNG file.

The geometry and the drawing pipeline are embedded over the real numbers.
The drawing library (PIL) is external to the repository; its fill primitives
are modelled from the specification's rasterization contract.
-/

namespace IchigoApple

open Real
open Classical

/-! ## Constants (from generate_icon.py lines 4-17, 38, 64-67) -/

def SIZE : ℕ := 1024

noncomputable def SCALE : ℝ := (SIZE : ℝ) / 108.0

structure Color where
  r : ℕ
  g : ℕ
  b : ℕ
  a : ℕ
deriving DecidableEq, Repr

def background : Color := ⟨255, 248, 225, 255⟩

def strawberry_color : Color := ⟨233, 30, 99, 255⟩

def leaf_color : Color := ⟨76, 175, 80, 255⟩

def seed_color : Color := ⟨255, 255, 255, 255⟩

noncomputable def scaled (x y : ℝ) : ℝ × ℝ := (x * SCALE, y * SCALE)

def cx : ℝ := 54

def cy : ℝ := 56

def base_rx : ℝ := 26

def base_ry : ℝ := 28

/-! ## Strawberry outline (lines 19-33) -/

/-- Embedding of Python's `math.radians`. -/
noncomputable def radians (deg : ℕ) : ℝ := (deg : ℝ) * π / 180

/-- The taper factor branch of the outline loop (lines 27-30). -/
noncomputable def factor (t : ℝ) : ℝ :=
  if Real.sin t < 0 then 0.7 + 0.3 * (1 + Real.sin t) else 1.0

/-- The logical-space outline point computed in the loop body (lines 31-32). -/
noncomputable def outlinePoint (deg : ℕ) : ℝ × ℝ :=
  (cx + base_rx * factor (radians deg) * Real.cos (radians deg),
   cy + base_ry * Real.sin (radians deg))

/-- The list `points` accumulated by the loop (lines 18-33): one scaled
point per integer degree 0..359. -/
noncomputable def points : List (ℝ × ℝ) :=
  (List.range 360).map fun deg => scaled (outlinePoint deg).1 (outlinePoint deg).2

/-- Shorthand for the scaled (pixel-space) outline point of degree `d`. -/
noncomputable def pt (d : ℕ) : ℝ × ℝ := scaled (outlinePoint d).1 (outlinePoint d).2

/-! ## Leaves, stem, seeds (lines 41-67) -/

def left_leaf_logical : List (ℤ × ℤ) := [(54, 29), (46, 18), (40, 20), (47, 25), (51, 29)]

def right_leaf_logical : List (ℤ × ℤ) := [(54, 29), (62, 18), (68, 20), (61, 25), (57, 29)]

noncomputable def left_leaf : List (ℝ × ℝ) :=
  [scaled 54 29, scaled 46 18, scaled 40 20, scaled 47 25, scaled 51 29]

noncomputable def right_leaf : List (ℝ × ℝ) :=
  [scaled 54 29, scaled 62 18, scaled 68 20, scaled 61 25, scaled 57 29]

def seed_positions : List (ℤ × ℤ) :=
  [(44, 48), (54, 43), (64, 48), (48, 58), (60, 58), (54, 68), (42, 64), (66, 64)]

noncomputable def seed_rx : ℝ := 2.0 * SCALE

noncomputable def seed_ry : ℝ := 2.8 * SCALE

/-! ## Basic facts about the constants -/

lemma SCALE_eq : SCALE = 256 / 27 := by
  unfold SCALE SIZE
  norm_num

lemma SCALE_pos : 0 < SCALE := by rw [SCALE_eq]; norm_num

lemma radians_nonneg (d : ℕ) : 0 ≤ radians d := by
  unfold radians
  positivity

lemma radians_strictMono {d e : ℕ} (h : d < e) : radians d < radians e := by
  unfold radians
  have hpi : (0:ℝ) < π := Real.pi_pos
  have hde : (d : ℝ) < (e : ℝ) := by exact_mod_cast h
  nlinarith

lemma radians_mono {d e : ℕ} (h : d ≤ e) : radians d ≤ radians e := by
  rcases Nat.lt_or_ge d e with h' | h'
  · exact (radians_strictMono h').le
  · have : d = e := le_antisymm h h'
    simp [this]

lemma radians_le_pi {d : ℕ} (h : d ≤ 180) : radians d ≤ π := by
  have h180 : radians 180 = π := by
    unfold radians
    push_cast
    ring
  calc radians d ≤ radians 180 := radians_mono h
    _ = π := h180

lemma radians_180 : radians 180 = π := by
  unfold radians
  push_cast
  ring

lemma radians_90 : radians 90 = π / 2 := by
  unfold radians
  push_cast
  ring

lemma radians_30 : radians 30 = π / 6 := by
  unfold radians
  push_cast
  ring

lemma radians_0 : radians 0 = 0 := by
  unfold radians
  push_cast
  ring

lemma radians_le_half_pi {d : ℕ} (h : d ≤ 90) : radians d ≤ π / 2 := by
  calc radians d ≤ radians 90 := radians_mono h
    _ = π / 2 := radians_90

lemma radians_mem_Icc {d : ℕ} (h : d ≤ 90) :
    radians d ∈ Set.Icc (-(π / 2)) (π / 2) := by
  constructor
  · have := radians_nonneg d
    have := Real.pi_pos
    linarith
  · exact radians_le_half_pi h

/-- Reflection identity: 180 - d degrees is pi minus d degrees in radians. -/
lemma radians_reflect {d : ℕ} (h : d ≤ 180) : radians (180 - d) = π - radians d := by
  unfold radians
  have : ((180 - d : ℕ) : ℝ) = 180 - (d : ℝ) := by
    push_cast [Nat.cast_sub h]
    ring
  rw [this]
  ring

lemma sin_radians_reflect {d : ℕ} (h : d ≤ 180) :
    Real.sin (radians d) = Real.sin (radians (180 - d)) := by
  rw [radians_reflect h, Real.sin_pi_sub]

/-- Strict monotonicity of the sine of a degree value on the first quadrant. -/
lemma sin_radians_lt {d e : ℕ} (he : e ≤ 90) (h : d < e) :
    Real.sin (radians d) < Real.sin (radians e) := by
  have hd : d ≤ 90 := le_trans h.le he
  exact Real.strictMonoOn_sin (radians_mem_Icc hd) (radians_mem_Icc he)
    (radians_strictMono h)

/-- Sine of a degree strictly between 0 and 180 is positive. -/
lemma sin_radians_pos {d : ℕ} (h1 : 1 ≤ d) (h2 : d ≤ 179) :
    0 < Real.sin (radians d) := by
  apply Real.sin_pos_of_pos_of_lt_pi
  · have := radians_strictMono (show 0 < d from h1)
    rwa [radians_0] at this
  · have := radians_strictMono (show d < 180 by omega)
    rwa [radians_180] at this

/-- Sine of a degree between 180 and 360 is nonpositive. -/
lemma sin_radians_nonpos {d : ℕ} (h1 : 180 ≤ d) (h2 : d ≤ 360) :
    Real.sin (radians d) ≤ 0 := by
  have hid : radians d - π = radians (d - 180) := by
    unfold radians
    have : ((d - 180 : ℕ) : ℝ) = (d : ℝ) - 180 := by
      push_cast [Nat.cast_sub h1]
      ring
    rw [this]
    ring
  have hr : Real.sin (radians d) = -Real.sin (radians (d - 180)) := by
    rw [← hid, Real.sin_sub_pi]
    ring
  rw [hr]
  have hnn : 0 ≤ Real.sin (radians (d - 180)) :=
    Real.sin_nonneg_of_nonneg_of_le_pi (radians_nonneg _) (radians_le_pi (by omega))
  linarith

/-- Sine of a degree strictly between 180 and 360 is negative. -/
lemma sin_radians_neg {d : ℕ} (h1 : 181 ≤ d) (h2 : d ≤ 359) :
    Real.sin (radians d) < 0 := by
  have hid : radians d - π = radians (d - 180) := by
    unfold radians
    have : ((d - 180 : ℕ) : ℝ) = (d : ℝ) - 180 := by
      push_cast [Nat.cast_sub (by omega : 180 ≤ d)]
      ring
    rw [this]
    ring
  have hr : Real.sin (radians d) = -Real.sin (radians (d - 180)) := by
    rw [← hid, Real.sin_sub_pi]
    ring
  rw [hr]
  have hpos : 0 < Real.sin (radians (d - 180)) := sin_radians_pos (by omega) (by omega)
  linarith

/-! ## Factor range facts -/

lemma factor_of_sin_nonneg {t : ℝ} (h : 0 ≤ Real.sin t) : factor t = 1 := by
  unfold factor
  rw [if_neg (by linarith)]
  norm_num

lemma factor_nonneg (t : ℝ) : 0 ≤ factor t := by
  unfold factor
  split_ifs with h
  · have := Real.neg_one_le_sin t
    nlinarith
  · norm_num

lemma factor_le_one (t : ℝ) : factor t ≤ 1 := by
  unfold factor
  split_ifs with h
  · nlinarith
  · norm_num

lemma factor_ge (t : ℝ) : 0.7 ≤ factor t := by
  unfold factor
  split_ifs with h
  · have := Real.neg_one_le_sin t
    nlinarith
  · norm_num

lemma sin_radians_270 : Real.sin (radians 270) = -1 := by
  have h : radians 270 = π + π / 2 := by
    unfold radians
    push_cast
    ring
  rw [h, Real.sin_add]
  simp

lemma points_length : points.length = 360 := by
  unfold points
  simp

lemma points_getD {d : ℕ} (h : d < 360) : points.getD d (0, 0) = pt d := by
  unfold points pt
  rw [List.getD_eq_getElem?_getD, List.getElem?_map, List.getElem?_range h]
  rfl

/-! ## Claim C1: the outline formula -/

/-- Taper factor as worded in the claim. -/
noncomputable def specFactor (t : ℝ) : ℝ :=
  if Real.sin t < 0 then 0.7 + 0.3 * (1 + Real.sin t) else 1.0

/-- Outline point as worded in the claim: (54 + 26*factor*cos t, 56 + 28*sin t). -/
noncomputable def specOutlinePoint (deg : ℕ) : ℝ × ℝ :=
  (54 + 26 * specFactor (radians deg) * Real.cos (radians deg),
   56 + 28 * Real.sin (radians deg))

/-- C1: for every integer degree deg in [0, 360), the generated outline point
equals (54 + 26*factor*cos t, 56 + 28*sin t) with t = deg in radians and
factor = 0.7 + 0.3*(1 + sin t) when sin t < 0 and 1.0 otherwise; the outline
is an ordered sequence of exactly 360 such points, one per degree 0..359. -/
theorem claim1_outline_formula :
    points.length = 360 ∧
    ∀ deg : ℕ, deg < 360 →
      outlinePoint deg = specOutlinePoint deg ∧
      points.getD deg (0, 0) = scaled (specOutlinePoint deg).1 (specOutlinePoint deg).2 := by
  have hpt : ∀ deg : ℕ, outlinePoint deg = specOutlinePoint deg := by
    intro deg
    unfold outlinePoint specOutlinePoint factor specFactor cx cy base_rx base_ry
    rfl
  refine ⟨points_length, fun deg h => ⟨hpt deg, ?_⟩⟩
  rw [points_getD h]
  unfold pt
  rw [hpt deg]

/-- Witness for C1 at degree 0. -/
theorem claim1_outline_formula_witness :
    outlinePoint 0 = specOutlinePoint 0 ∧
    points.getD 0 (0, 0) = scaled (specOutlinePoint 0).1 (specOutlinePoint 0).2 :=
  claim1_outline_formula.2 0 (by norm_num)

/-! ## Claim C4: the outline deviation bounds -/

/-- C4: for every integer degree deg in [0, 360), the generated outline
point (x, y) satisfies x deviating from 54 by at most 26 and y deviating
from 56 by at most 28 in logical units. -/
theorem claim4_outline_bounded :
    ∀ deg : ℕ, deg < 360 →
      |(outlinePoint deg).1 - 54| ≤ 26 ∧ |(outlinePoint deg).2 - 56| ≤ 28 := by
  intro deg _
  unfold outlinePoint cx cy base_rx base_ry
  set t := radians deg with ht
  constructor
  · show |54 + 26 * factor t * Real.cos t - 54| ≤ 26
    have hf : (0:ℝ) ≤ 26 * factor t := by nlinarith [factor_nonneg t]
    have habs : |26 * factor t * Real.cos t| = 26 * factor t * |Real.cos t| := by
      rw [abs_mul, abs_of_nonneg hf]
    simp only [add_sub_cancel_left]
    rw [habs]
    nlinarith [Real.abs_cos_le_one t, factor_le_one t, factor_nonneg t,
      abs_nonneg (Real.cos t)]
  · show |56 + 28 * Real.sin t - 56| ≤ 28
    have habs : |28 * Real.sin t| = 28 * |Real.sin t| := by
      rw [abs_mul, abs_of_nonneg (by norm_num : (0:ℝ) ≤ 28)]
    simp only [add_sub_cancel_left]
    rw [habs]
    nlinarith [Real.abs_sin_le_one t]

/-- Witness for C4 at degree 90. -/
theorem claim4_outline_bounded_witness :
    |(outlinePoint 90).1 - 54| ≤ 26 ∧ |(outlinePoint 90).2 - 56| ≤ 28 :=
  claim4_outline_bounded 90 (by norm_num)

/-! ## Claim C5: the taper factor on the upper half -/

/-- C5: on the upper half of the outline (degrees with sin < 0), the taper
factor is a monotonically increasing function of sin(deg); it attains its
minimum 0.7 at deg = 270 where sin = -1, and the factor equals 1.0 at
deg = 0 and deg = 180 where sin = 0. -/
theorem claim5_taper_monotone :
    (∀ d1 d2 : ℕ, Real.sin (radians d1) < 0 → Real.sin (radians d2) < 0 →
        Real.sin (radians d1) ≤ Real.sin (radians d2) →
        factor (radians d1) ≤ factor (radians d2)) ∧
    Real.sin (radians 270) = -1 ∧
    factor (radians 270) = 0.7 ∧
    (∀ d : ℕ, Real.sin (radians d) < 0 → 0.7 ≤ factor (radians d)) ∧
    Real.sin (radians 0) = 0 ∧ factor (radians 0) = 1 ∧
    Real.sin (radians 180) = 0 ∧ factor (radians 180) = 1 := by
  refine ⟨?_, sin_radians_270, ?_, fun d _ => factor_ge (radians d), ?_, ?_, ?_, ?_⟩
  · intro d1 d2 h1 h2 hle
    unfold factor
    rw [if_pos h1, if_pos h2]
    linarith
  · unfold factor
    rw [if_pos (by rw [sin_radians_270]; norm_num), sin_radians_270]
    norm_num
  · rw [radians_0, Real.sin_zero]
  · exact factor_of_sin_nonneg (by rw [radians_0, Real.sin_zero])
  · rw [radians_180, Real.sin_pi]
  · exact factor_of_sin_nonneg (by rw [radians_180, Real.sin_pi])

/-- Witness for C5 at degrees 270 and 270. -/
theorem claim5_taper_monotone_witness :
    factor (radians 270) ≤ factor (radians 270) ∧ 0.7 ≤ factor (radians 270) := by
  have hsin : Real.sin (radians 270) < 0 := by
    rw [claim5_taper_monotone.2.1]
    norm_num
  exact ⟨claim5_taper_monotone.1 270 270 hsin hsin le_rfl,
    claim5_taper_monotone.2.2.2.1 270 hsin⟩

/-! ## Claim C6: the leaf mirror symmetry -/

/-- C6: the two leaf polygons are fixed 5-point polygons, mirror-symmetric
about the vertical line x = 54: each left-leaf vertex (x, y) corresponds to
the right-leaf vertex (108 - x, y), and the drawn leaves are exactly these
vertex lists scaled to pixel space. -/
theorem claim6_leaf_mirror :
    left_leaf_logical.length = 5 ∧ right_leaf_logical.length = 5 ∧
    right_leaf_logical = left_leaf_logical.map (fun q => (108 - q.1, q.2)) ∧
    left_leaf = left_leaf_logical.map (fun q => scaled (q.1 : ℝ) (q.2 : ℝ)) ∧
    right_leaf = right_leaf_logical.map (fun q => scaled (q.1 : ℝ) (q.2 : ℝ)) := by
  refine ⟨by decide, by decide, by decide, ?_, ?_⟩ <;>
    simp [left_leaf, right_leaf, left_leaf_logical, right_leaf_logical]

/-! ## Rasterizer model

The drawing library (PIL) is not part of the repository; the fill
primitives below are modelled from the specification's rasterization
contract (spec section 4.2). -/

/-- Modelled from the spec: the drawing library's filled rasterization
primitive (the missing `ImageDraw` fill operations). A fill writes opaque
pixels of the given color into all canvas points enclosed by the shape and
leaves other points unchanged, so a later fill occludes earlier ones where
they overlap. -/
noncomputable def fill (inside : ℝ × ℝ → Prop) (c : Color)
    (canvas : ℝ × ℝ → Color) : ℝ × ℝ → Color :=
  fun p => if inside p then c else canvas p

/-- Modelled from the spec: a point lies inside an ellipse given by its
bounding box when it lies within the ellipse's defining radii. -/
def insideEllipse (x0 y0 x1 y1 : ℝ) (p : ℝ × ℝ) : Prop :=
  ((p.1 - (x0 + x1) / 2) / ((x1 - x0) / 2)) ^ 2 +
    ((p.2 - (y0 + y1) / 2) / ((y1 - y0) / 2)) ^ 2 ≤ 1

/-- Modelled from the spec: a point lies inside an axis-aligned rectangle
given by two corner points when both coordinates lie between the corners. -/
def insideRect (x0 y0 x1 y1 : ℝ) (p : ℝ × ℝ) : Prop :=
  x0 ≤ p.1 ∧ p.1 ≤ x1 ∧ y0 ≤ p.2 ∧ p.2 ≤ y1

/-- The polygon edge from `a` to `b` is crossed by the horizontal rightward
ray out of `p`: the height of `p` lies in the edge's half-open vertical
span, and the ray meets the edge strictly to the right of `p`. -/
def edgeCrossesRight (p a b : ℝ × ℝ) : Prop :=
  ((a.2 ≤ p.2 ∧ p.2 < b.2) ∨ (b.2 ≤ p.2 ∧ p.2 < a.2)) ∧
    p.1 < a.1 + (p.2 - a.2) / (b.2 - a.2) * (b.1 - a.1)

/-- Modelled from the spec: scan-fill polygon membership; a point is inside
a polygon when a horizontal rightward ray from it crosses the polygon
boundary (the closed cycle of its edges) an odd number of times. -/
def insidePolygon (vs : List (ℝ × ℝ)) (p : ℝ × ℝ) : Prop :=
  Odd (((Finset.range vs.length).filter fun i =>
    edgeCrossesRight p (vs.getD i (0, 0)) (vs.getD ((i + 1) % vs.length) (0, 0))).card)

/-! ## The drawing pipeline (lines 7, 35, 48, 58, 61, 69-71), in source order -/

noncomputable def canvas0 : ℝ × ℝ → Color := fun _ => background

noncomputable def canvas_body : ℝ × ℝ → Color :=
  fill (insidePolygon points) strawberry_color canvas0

noncomputable def canvas_leafL : ℝ × ℝ → Color :=
  fill (insidePolygon left_leaf) leaf_color canvas_body

noncomputable def canvas_leafR : ℝ × ℝ → Color :=
  fill (insidePolygon right_leaf) leaf_color canvas_leafL

noncomputable def canvas_stem : ℝ × ℝ → Color :=
  fill (insideRect (53 * SCALE) (23 * SCALE) (55 * SCALE) (29 * SCALE)) leaf_color canvas_leafR

/-- The filled region of the seed ellipse of a seed position (lines 69-71). -/
noncomputable def seedInside (s : ℤ × ℤ) (p : ℝ × ℝ) : Prop :=
  insideEllipse ((s.1 : ℝ) * SCALE - seed_rx) ((s.2 : ℝ) * SCALE - seed_ry)
    ((s.1 : ℝ) * SCALE + seed_rx) ((s.2 : ℝ) * SCALE + seed_ry) p

/-- The canvas after all drawing operations (background, body, left leaf,
right leaf, stem, then the eight seeds in list order). -/
noncomputable def finalCanvas : ℝ × ℝ → Color :=
  seed_positions.foldl (fun c s => fill (seedInside s) seed_color c) canvas_stem

/-! ## Claim C2: draw-order occlusion -/

lemma foldl_fill_const {l : List (ℤ × ℤ)} {c0 : ℝ × ℝ → Color} {p : ℝ × ℝ}
    (h : c0 p = seed_color) :
    (l.foldl (fun c s => fill (seedInside s) seed_color c) c0) p = seed_color := by
  induction l generalizing c0 with
  | nil => simpa using h
  | cons a l ih =>
      simp only [List.foldl_cons]
      apply ih
      show (if seedInside a p then seed_color else c0 p) = seed_color
      split_ifs with hin
      · rfl
      · exact h

lemma foldl_fill_mem {l : List (ℤ × ℤ)} {c0 : ℝ × ℝ → Color} {p : ℝ × ℝ}
    {s : ℤ × ℤ} (hs : s ∈ l) (h : seedInside s p) :
    (l.foldl (fun c s => fill (seedInside s) seed_color c) c0) p = seed_color := by
  induction l generalizing c0 with
  | nil => cases hs
  | cons a l ih =>
      simp only [List.foldl_cons]
      rcases List.mem_cons.1 hs with rfl | hmem
      · apply foldl_fill_const
        show (if seedInside s p then seed_color else c0 p) = seed_color
        rw [if_pos h]
      · exact ih hmem

/-- C2: after all drawing operations, any canvas pixel enclosed by both the
strawberry body polygon and one of the eight seed ellipses holds the seed
color (255,255,255,255): fills happen in the fixed order background, body,
leaves, stem, seeds, and each later fill overwrites earlier ones. -/
theorem claim2_seed_occlusion :
    ∀ (p : ℝ × ℝ) (s : ℤ × ℤ), s ∈ seed_positions →
      insidePolygon points p → seedInside s p →
      finalCanvas p = seed_color := by
  intro p s hmem _ hseed
  unfold finalCanvas
  exact foldl_fill_mem hmem hseed

/-! ## Ray-crossing helper lemmas -/

lemma noCross_of_le {p a b : ℝ × ℝ} (ha : a.2 ≤ p.2) (hb : b.2 ≤ p.2) :
    ¬ edgeCrossesRight p a b := by
  rintro ⟨⟨h1, h2⟩ | ⟨h1, h2⟩, -⟩ <;> linarith

lemma noCross_of_lt {p a b : ℝ × ℝ} (ha : p.2 < a.2) (hb : p.2 < b.2) :
    ¬ edgeCrossesRight p a b := by
  rintro ⟨⟨h1, h2⟩ | ⟨h1, h2⟩, -⟩ <;> linarith

/-- An edge whose endpoints both lie at or left of `p` is never counted:
the crossing point is a convex combination of the endpoint abscissas. -/
lemma noCross_of_xle {p a b : ℝ × ℝ} (ha : a.1 ≤ p.1) (hb : b.1 ≤ p.1) :
    ¬ edgeCrossesRight p a b := by
  rintro ⟨hy, hx⟩
  rcases hy with ⟨h1, h2⟩ | ⟨h1, h2⟩
  · have hd : 0 < b.2 - a.2 := by linarith
    set q := (p.2 - a.2) / (b.2 - a.2) with hq
    have hq0 : 0 ≤ q := div_nonneg (by linarith) hd.le
    have hq1 : q ≤ 1 := by
      rw [hq, div_le_one hd]
      linarith
    nlinarith [mul_nonneg (sub_nonneg.2 hq1) (sub_nonneg.2 ha),
      mul_nonneg hq0 (sub_nonneg.2 hb)]
  · have hd : 0 < a.2 - b.2 := by linarith
    have hrw : (p.2 - a.2) / (b.2 - a.2) = (a.2 - p.2) / (a.2 - b.2) := by
      rw [show p.2 - a.2 = -(a.2 - p.2) by ring, show b.2 - a.2 = -(a.2 - b.2) by ring,
        neg_div_neg_eq]
    rw [hrw] at hx
    set q := (a.2 - p.2) / (a.2 - b.2) with hq
    have hq0 : 0 ≤ q := div_nonneg (by linarith) hd.le
    have hq1 : q ≤ 1 := by
      rw [hq, div_le_one hd]
      linarith
    nlinarith [mul_nonneg (sub_nonneg.2 hq1) (sub_nonneg.2 ha),
      mul_nonneg hq0 (sub_nonneg.2 hb)]

/-- An edge whose vertical span straddles `p` and whose endpoints both lie
strictly right of `p` (at or right of a threshold `m` beyond `p`) is counted. -/
lemma cross_of {p a b : ℝ × ℝ} {m : ℝ}
    (hy : (a.2 ≤ p.2 ∧ p.2 < b.2) ∨ (b.2 ≤ p.2 ∧ p.2 < a.2))
    (hm : p.1 < m) (ham : m ≤ a.1) (hbm : m ≤ b.1) :
    edgeCrossesRight p a b := by
  refine ⟨hy, ?_⟩
  rcases hy with ⟨h1, h2⟩ | ⟨h1, h2⟩
  · have hd : 0 < b.2 - a.2 := by linarith
    set q := (p.2 - a.2) / (b.2 - a.2) with hq
    have hq0 : 0 ≤ q := div_nonneg (by linarith) hd.le
    have hq1 : q ≤ 1 := by
      rw [hq, div_le_one hd]
      linarith
    nlinarith [mul_nonneg (sub_nonneg.2 hq1) (sub_nonneg.2 ham),
      mul_nonneg hq0 (sub_nonneg.2 hbm)]
  · have hd : 0 < a.2 - b.2 := by linarith
    have hrw : (p.2 - a.2) / (b.2 - a.2) = (a.2 - p.2) / (a.2 - b.2) := by
      rw [show p.2 - a.2 = -(a.2 - p.2) by ring, show b.2 - a.2 = -(a.2 - b.2) by ring,
        neg_div_neg_eq]
    rw [hrw]
    set q := (a.2 - p.2) / (a.2 - b.2) with hq
    have hq0 : 0 ≤ q := div_nonneg (by linarith) hd.le
    have hq1 : q ≤ 1 := by
      rw [hq, div_le_one hd]
      linarith
    nlinarith [mul_nonneg (sub_nonneg.2 hq1) (sub_nonneg.2 ham),
      mul_nonneg hq0 (sub_nonneg.2 hbm)]

lemma getD_mem {l : List (ℝ × ℝ)} {i : ℕ} (h : i < l.length) :
    l.getD i (0, 0) ∈ l := by
  rw [List.getD_eq_getElem?_getD, List.getElem?_eq_getElem h]
  exact List.getElem_mem h

/-- A point strictly above every vertex of a polygon is outside it. -/
lemma notInside_of_below {vs : List (ℝ × ℝ)} {p : ℝ × ℝ}
    (h : ∀ q ∈ vs, q.2 < p.2) : ¬ insidePolygon vs p := by
  unfold insidePolygon
  have hempty : ((Finset.range vs.length).filter fun i =>
      edgeCrossesRight p (vs.getD i (0, 0)) (vs.getD ((i + 1) % vs.length) (0, 0))) = ∅ := by
    apply Finset.filter_eq_empty_iff.2
    intro i hi
    have hilen : i < vs.length := Finset.mem_range.1 hi
    have hlen : 0 < vs.length := lt_of_le_of_lt (Nat.zero_le i) hilen
    exact noCross_of_le (h _ (getD_mem hilen)).le
      (h _ (getD_mem (Nat.mod_lt _ hlen))).le
  rw [hempty]
  simp

/-- A point strictly below every vertex of a polygon is outside it. -/
lemma notInside_of_above {vs : List (ℝ × ℝ)} {p : ℝ × ℝ}
    (h : ∀ q ∈ vs, p.2 < q.2) : ¬ insidePolygon vs p := by
  unfold insidePolygon
  have hempty : ((Finset.range vs.length).filter fun i =>
      edgeCrossesRight p (vs.getD i (0, 0)) (vs.getD ((i + 1) % vs.length) (0, 0))) = ∅ := by
    apply Finset.filter_eq_empty_iff.2
    intro i hi
    have hilen : i < vs.length := Finset.mem_range.1 hi
    have hlen : 0 < vs.length := lt_of_le_of_lt (Nat.zero_le i) hilen
    exact noCross_of_lt (h _ (getD_mem hilen)) (h _ (getD_mem (Nat.mod_lt _ hlen)))
  rw [hempty]
  simp

/-! ## Coordinates of the scaled outline points -/

lemma radians_270 : radians 270 = π + π / 2 := by
  unfold radians
  push_cast
  ring

lemma pt_fst (d : ℕ) :
    (pt d).1 = (54 + 26 * factor (radians d) * Real.cos (radians d)) * SCALE := rfl

lemma pt_snd (d : ℕ) :
    (pt d).2 = (56 + 28 * Real.sin (radians d)) * SCALE := rfl

lemma pt0_snd : (pt 0).2 = 56 * SCALE := by
  rw [pt_snd, radians_0, Real.sin_zero]
  ring

lemma pt0_fst : (pt 0).1 = 80 * SCALE := by
  rw [pt_fst, factor_of_sin_nonneg (by rw [radians_0, Real.sin_zero]), radians_0,
    Real.cos_zero]
  ring

lemma cos_radians_nonpos {d : ℕ} (h1 : 90 ≤ d) (h2 : d ≤ 270) :
    Real.cos (radians d) ≤ 0 := by
  apply Real.cos_nonpos_of_pi_div_two_le_of_le
  · rw [← radians_90]
    exact radians_mono h1
  · rw [← radians_270]
    exact radians_mono h2

lemma cos_radians_pos {d : ℕ} (h : d ≤ 89) : 0 < Real.cos (radians d) := by
  apply Real.cos_pos_of_mem_Ioo
  constructor
  · have := radians_nonneg d
    have := Real.pi_pos
    linarith
  · calc radians d < radians 90 := radians_strictMono (by omega)
      _ = π / 2 := radians_90

lemma cos_radians_lt {d e : ℕ} (he : e ≤ 180) (h : d < e) :
    Real.cos (radians e) < Real.cos (radians d) := by
  have hIccd : radians d ∈ Set.Icc 0 π :=
    ⟨radians_nonneg d, radians_le_pi (by omega)⟩
  have hIcce : radians e ∈ Set.Icc 0 π :=
    ⟨radians_nonneg e, radians_le_pi he⟩
  exact Real.strictAntiOn_cos hIccd hIcce (radians_strictMono h)

/-- The horizontal coordinate of a scaled outline point on the upper-right
of the lower half, when the cosine is nonpositive, stays at or left of the
scaled center. -/
lemma pt_fst_le_center {d : ℕ} (hc : Real.cos (radians d) ≤ 0)
    (hs : 0 ≤ Real.sin (radians d)) : (pt d).1 ≤ 54 * SCALE := by
  rw [pt_fst, factor_of_sin_nonneg hs]
  nlinarith [SCALE_pos]

lemma points_mem {q : ℝ × ℝ} (h : q ∈ points) : ∃ d, d < 360 ∧ q = pt d := by
  unfold points at h
  simp only [List.mem_map, List.mem_range] at h
  obtain ⟨d, hd, rfl⟩ := h
  exact ⟨d, hd, rfl⟩

/-! ## Membership of the scaled body center in the body polygon -/

/-- The scaled body center (54*SCALE, 56*SCALE) lies inside the strawberry
body polygon: the rightward ray at the center height crosses exactly the
edge from degree 0 to degree 1. -/
lemma inBody_center : insidePolygon points (54 * SCALE, 56 * SCALE) := by
  unfold insidePolygon
  simp only [points_length]
  have hS := SCALE_pos
  have habove : ∀ e : ℕ, 1 ≤ e → e ≤ 179 → (56 : ℝ) * SCALE < (pt e).2 := by
    intro e he1 he2
    rw [pt_snd]
    nlinarith [sin_radians_pos he1 he2]
  have hbelow : ∀ e : ℕ, 180 ≤ e → e ≤ 360 → (pt e).2 ≤ (56 : ℝ) * SCALE := by
    intro e he1 he2
    rw [pt_snd]
    nlinarith [sin_radians_nonpos he1 he2]
  have hset : ((Finset.range 360).filter fun i =>
      edgeCrossesRight (54 * SCALE, 56 * SCALE)
        (points.getD i (0, 0)) (points.getD ((i + 1) % 360) (0, 0))) = {0} := by
    apply Finset.ext
    intro d
    simp only [Finset.mem_filter, Finset.mem_range, Finset.mem_singleton]
    constructor
    · rintro ⟨hd, hcross⟩
      by_contra hne
      rw [points_getD hd, points_getD (Nat.mod_lt _ (by norm_num))] at hcross
      rcases Nat.lt_or_ge d 179 with h179 | h179
      · -- degrees 1..178: both edge endpoints strictly above the ray
        have hmod : (d + 1) % 360 = d + 1 := Nat.mod_eq_of_lt (by omega)
        rw [hmod] at hcross
        exact noCross_of_lt (habove d (by omega) (by omega))
          (habove (d + 1) (by omega) (by omega)) hcross
      · rcases Nat.eq_or_lt_of_le h179 with h179e | h180
        · -- degree 179: the edge crosses the ray on the left side
          subst h179e
          have hmod : (179 + 1) % 360 = 180 := by norm_num
          rw [hmod] at hcross
          refine noCross_of_xle ?_ ?_ hcross
          · exact pt_fst_le_center
              (cos_radians_nonpos (by norm_num) (by norm_num))
              (sin_radians_pos (by norm_num) (by norm_num)).le
          · exact pt_fst_le_center
              (cos_radians_nonpos (by norm_num) (by norm_num))
              (by rw [radians_180, Real.sin_pi])
        · -- degrees 180..359: both edge endpoints at or below the ray
          rcases Nat.lt_or_ge d 359 with h359 | h359
          · have hmod : (d + 1) % 360 = d + 1 := Nat.mod_eq_of_lt (by omega)
            rw [hmod] at hcross
            exact noCross_of_le (hbelow d (by omega) (by omega))
              (hbelow (d + 1) (by omega) (by omega)) hcross
          · have hd359 : d = 359 := by omega
            subst hd359
            have hmod : (359 + 1) % 360 = 0 := by norm_num
            rw [hmod] at hcross
            exact noCross_of_le (hbelow 359 (by norm_num) (by norm_num))
              (le_of_eq pt0_snd) hcross
    · rintro rfl
      refine ⟨by norm_num, ?_⟩
      rw [points_getD (by norm_num), points_getD (by norm_num : (0 + 1) % 360 < 360)]
      have hmod : (0 + 1) % 360 = 1 := by norm_num
      rw [hmod]
      have hcos1 : 0 < Real.cos (radians 1) := cos_radians_pos (by norm_num)
      have hsin1 : 0 < Real.sin (radians 1) := sin_radians_pos le_rfl (by norm_num)
      apply cross_of (m := (54 + 26 * Real.cos (radians 1)) * SCALE)
      · left
        constructor
        · rw [pt0_snd]
        · rw [pt_snd]
          show (56 : ℝ) * SCALE < (56 + 28 * Real.sin (radians 1)) * SCALE
          nlinarith
      · show (54 : ℝ) * SCALE < (54 + 26 * Real.cos (radians 1)) * SCALE
        nlinarith
      · rw [pt0_fst]
        nlinarith [Real.cos_le_one (radians 1)]
      · rw [pt_fst 1, factor_of_sin_nonneg hsin1.le]
        apply le_of_eq
        ring
  rw [hset]
  simp

/-! ## Membership of the point below seed (54, 68) in the body polygon -/

lemma sin_radians_30 : Real.sin (radians 30) = 1 / 2 := by
  rw [radians_30, Real.sin_pi_div_six]

lemma sin_radians_le_half {e : ℕ} (h : e ≤ 30 ∨ (150 ≤ e ∧ e ≤ 360)) :
    Real.sin (radians e) ≤ 1 / 2 := by
  have hfirst : ∀ f : ℕ, f ≤ 30 → Real.sin (radians f) ≤ 1 / 2 := by
    intro f hf
    rcases Nat.lt_or_ge f 30 with hf' | hf'
    · rw [← sin_radians_30]
      exact (sin_radians_lt (by norm_num) hf').le
    · have : f = 30 := by omega
      rw [this, sin_radians_30]
  rcases h with h30 | ⟨h150, h360⟩
  · exact hfirst e h30
  · rcases Nat.lt_or_ge e 181 with h180 | h180
    · rw [sin_radians_reflect (by omega)]
      exact hfirst (180 - e) (by omega)
    · calc Real.sin (radians e) ≤ 0 := sin_radians_nonpos (by omega) h360
        _ ≤ 1 / 2 := by norm_num

lemma half_lt_sin_radians {e : ℕ} (h1 : 31 ≤ e) (h2 : e ≤ 149) :
    1 / 2 < Real.sin (radians e) := by
  have hfirst : ∀ f : ℕ, 31 ≤ f → f ≤ 90 → 1 / 2 < Real.sin (radians f) := by
    intro f hf1 hf2
    rw [← sin_radians_30]
    exact sin_radians_lt hf2 (by omega)
  rcases Nat.lt_or_ge e 91 with h90 | h90
  · exact hfirst e h1 (by omega)
  · rw [sin_radians_reflect (by omega)]
    exact hfirst (180 - e) (by omega) (by omega)

/-- The pixel (54*SCALE, 70*SCALE), the lower part of the seed ellipse
centered at logical (54, 68), lies inside the strawberry body polygon: the
rightward ray at that height crosses exactly the edge from degree 30 to 31. -/
lemma inBody_seed70 : insidePolygon points (54 * SCALE, 70 * SCALE) := by
  unfold insidePolygon
  simp only [points_length]
  have hS := SCALE_pos
  have habove : ∀ e : ℕ, 31 ≤ e → e ≤ 149 → (70 : ℝ) * SCALE < (pt e).2 := by
    intro e he1 he2
    rw [pt_snd]
    nlinarith [half_lt_sin_radians he1 he2]
  have hbelow : ∀ e : ℕ, (e ≤ 30 ∨ (150 ≤ e ∧ e ≤ 360)) → (pt e).2 ≤ (70 : ℝ) * SCALE := by
    intro e he
    rw [pt_snd]
    nlinarith [sin_radians_le_half he]
  have hset : ((Finset.range 360).filter fun i =>
      edgeCrossesRight (54 * SCALE, 70 * SCALE)
        (points.getD i (0, 0)) (points.getD ((i + 1) % 360) (0, 0))) = {30} := by
    apply Finset.ext
    intro d
    simp only [Finset.mem_filter, Finset.mem_range, Finset.mem_singleton]
    constructor
    · rintro ⟨hd, hcross⟩
      by_contra hne
      rw [points_getD hd, points_getD (Nat.mod_lt _ (by norm_num))] at hcross
      rcases Nat.lt_or_ge d 30 with hlt30 | hge30
      · -- degrees 0..29: both endpoints at or below the ray
        have hmod : (d + 1) % 360 = d + 1 := Nat.mod_eq_of_lt (by omega)
        rw [hmod] at hcross
        exact noCross_of_le (hbelow d (Or.inl (by omega)))
          (hbelow (d + 1) (Or.inl (by omega))) hcross
      · rcases Nat.lt_or_ge d 149 with hlt149 | hge149
        · -- degrees 31..148: both endpoints strictly above the ray
          have hmod : (d + 1) % 360 = d + 1 := Nat.mod_eq_of_lt (by omega)
          rw [hmod] at hcross
          exact noCross_of_lt (habove d (by omega) (by omega))
            (habove (d + 1) (by omega) (by omega)) hcross
        · rcases Nat.eq_or_lt_of_le hge149 with h149e | hgt149
          · -- degree 149: the edge crosses the ray on the left side
            have h149 : d = 149 := h149e.symm
            subst h149
            have hmod : (149 + 1) % 360 = 150 := by norm_num
            rw [hmod] at hcross
            refine noCross_of_xle ?_ ?_ hcross
            · exact pt_fst_le_center
                (cos_radians_nonpos (by norm_num) (by norm_num))
                (sin_radians_pos (by norm_num) (by norm_num)).le
            · exact pt_fst_le_center
                (cos_radians_nonpos (by norm_num) (by norm_num))
                (sin_radians_pos (by norm_num) (by norm_num)).le
          · -- degrees 150..359: both endpoints at or below the ray
            rcases Nat.lt_or_ge d 359 with h359 | h359
            · have hmod : (d + 1) % 360 = d + 1 := Nat.mod_eq_of_lt (by omega)
              rw [hmod] at hcross
              exact noCross_of_le (hbelow d (Or.inr ⟨by omega, by omega⟩))
                (hbelow (d + 1) (Or.inr ⟨by omega, by omega⟩)) hcross
            · have hd359 : d = 359 := by omega
              subst hd359
              have hmod : (359 + 1) % 360 = 0 := by norm_num
              rw [hmod] at hcross
              exact noCross_of_le (hbelow 359 (Or.inr ⟨by norm_num, by norm_num⟩))
                (hbelow 0 (Or.inl (by norm_num))) hcross
    · rintro rfl
      refine ⟨by norm_num, ?_⟩
      rw [points_getD (by norm_num), points_getD (by norm_num : (30 + 1) % 360 < 360)]
      have hmod : (30 + 1) % 360 = 31 := by norm_num
      rw [hmod]
      have hcos31 : 0 < Real.cos (radians 31) := cos_radians_pos (by norm_num)
      have hsin31 : 0 < Real.sin (radians 31) := sin_radians_pos (by norm_num) (by norm_num)
      have hsin30 : 0 ≤ Real.sin (radians 30) := by rw [sin_radians_30]; norm_num
      apply cross_of (m := (54 + 26 * Real.cos (radians 31)) * SCALE)
      · left
        constructor
        · show (pt 30).2 ≤ (70 : ℝ) * SCALE
          rw [pt_snd, sin_radians_30]
          apply le_of_eq
          ring
        · rw [pt_snd]
          show (70 : ℝ) * SCALE < (56 + 28 * Real.sin (radians 31)) * SCALE
          nlinarith [half_lt_sin_radians (le_refl 31) (by norm_num : (31:ℕ) ≤ 149)]
      · show (54 : ℝ) * SCALE < (54 + 26 * Real.cos (radians 31)) * SCALE
        nlinarith
      · rw [pt_fst 30, factor_of_sin_nonneg hsin30]
        have hcoslt : Real.cos (radians 31) < Real.cos (radians 30) :=
          cos_radians_lt (by norm_num) (by norm_num)
        nlinarith
      · rw [pt_fst 31, factor_of_sin_nonneg hsin31.le]
        apply le_of_eq
        ring
  rw [hset]
  simp

/-- Witness for C2: the pixel (54*SCALE, 70*SCALE) is inside both the body
polygon and the seed ellipse centered at logical (54, 68), and the final
canvas holds the seed color there. -/
theorem claim2_seed_occlusion_witness :
    ((54, 68) : ℤ × ℤ) ∈ seed_positions ∧
    insidePolygon points (54 * SCALE, 70 * SCALE) ∧
    seedInside (54, 68) (54 * SCALE, 70 * SCALE) ∧
    finalCanvas (54 * SCALE, 70 * SCALE) = seed_color := by
  have hmem : ((54, 68) : ℤ × ℤ) ∈ seed_positions := by
    simp [seed_positions]
  have hseed : seedInside (54, 68) (54 * SCALE, 70 * SCALE) := by
    unfold seedInside insideEllipse seed_rx seed_ry
    norm_num [SCALE_eq]
  exact ⟨hmem, inBody_seed70, hseed,
    claim2_seed_occlusion _ _ hmem inBody_seed70 hseed⟩

/-! ## Evaluating the pipeline at single pixels -/

lemma fill_pos {inside : ℝ × ℝ → Prop} {c : Color} {cv : ℝ × ℝ → Color}
    {p : ℝ × ℝ} (h : inside p) : fill inside c cv p = c := by
  show (if inside p then c else cv p) = c
  rw [if_pos h]

lemma fill_neg {inside : ℝ × ℝ → Prop} {c : Color} {cv : ℝ × ℝ → Color}
    {p : ℝ × ℝ} (h : ¬ inside p) : fill inside c cv p = cv p := by
  show (if inside p then c else cv p) = cv p
  rw [if_neg h]

lemma foldl_fill_skip {l : List (ℤ × ℤ)} {c0 : ℝ × ℝ → Color} {p : ℝ × ℝ}
    (h : ∀ s ∈ l, ¬ seedInside s p) :
    (l.foldl (fun c s => fill (seedInside s) seed_color c) c0) p = c0 p := by
  induction l generalizing c0 with
  | nil => rfl
  | cons a l ih =>
      simp only [List.foldl_cons]
      rw [ih fun s hs => h s (List.mem_cons_of_mem _ hs)]
      exact fill_neg (h a (List.mem_cons_self _ _))

/-! ## Non-membership facts for the two probed pixels -/

lemma outline_above_zero : ∀ q ∈ points, (0 : ℝ) < q.2 := by
  intro q hq
  obtain ⟨d, _, rfl⟩ := points_mem hq
  rw [pt_snd]
  nlinarith [Real.neg_one_le_sin (radians d), SCALE_pos]

lemma notInBody_00 : ¬ insidePolygon points ((0 : ℝ), (0 : ℝ)) :=
  notInside_of_above outline_above_zero

lemma notInLeafL_00 : ¬ insidePolygon left_leaf ((0 : ℝ), (0 : ℝ)) := by
  apply notInside_of_above
  intro q hq
  simp only [left_leaf, List.mem_cons, List.not_mem_nil, or_false] at hq
  rcases hq with h | h | h | h | h <;> subst h <;> norm_num [scaled, SCALE_eq]

lemma notInLeafR_00 : ¬ insidePolygon right_leaf ((0 : ℝ), (0 : ℝ)) := by
  apply notInside_of_above
  intro q hq
  simp only [right_leaf, List.mem_cons, List.not_mem_nil, or_false] at hq
  rcases hq with h | h | h | h | h <;> subst h <;> norm_num [scaled, SCALE_eq]

lemma notInStem_00 :
    ¬ insideRect (53 * SCALE) (23 * SCALE) (55 * SCALE) (29 * SCALE) ((0 : ℝ), (0 : ℝ)) := by
  rintro ⟨h1, -, -, -⟩
  rw [SCALE_eq] at h1
  norm_num at h1

lemma notInSeeds_00 : ∀ s ∈ seed_positions, ¬ seedInside s ((0 : ℝ), (0 : ℝ)) := by
  intro s hs
  simp only [seed_positions, List.mem_cons, List.not_mem_nil, or_false] at hs
  rcases hs with h | h | h | h | h | h | h | h <;> subst h <;>
    (unfold seedInside insideEllipse seed_rx seed_ry; norm_num [SCALE_eq])

lemma notInLeafL_center : ¬ insidePolygon left_leaf (54 * SCALE, 56 * SCALE) := by
  apply notInside_of_below
  intro q hq
  simp only [left_leaf, List.mem_cons, List.not_mem_nil, or_false] at hq
  rcases hq with h | h | h | h | h <;> subst h <;> norm_num [scaled, SCALE_eq]

lemma notInLeafR_center : ¬ insidePolygon right_leaf (54 * SCALE, 56 * SCALE) := by
  apply notInside_of_below
  intro q hq
  simp only [right_leaf, List.mem_cons, List.not_mem_nil, or_false] at hq
  rcases hq with h | h | h | h | h <;> subst h <;> norm_num [scaled, SCALE_eq]

lemma notInStem_center :
    ¬ insideRect (53 * SCALE) (23 * SCALE) (55 * SCALE) (29 * SCALE) (54 * SCALE, 56 * SCALE) := by
  rintro ⟨-, -, -, h4⟩
  rw [SCALE_eq] at h4
  norm_num at h4

lemma notInSeeds_center : ∀ s ∈ seed_positions, ¬ seedInside s (54 * SCALE, 56 * SCALE) := by
  intro s hs
  simp only [seed_positions, List.mem_cons, List.not_mem_nil, or_false] at hs
  rcases hs with h | h | h | h | h | h | h | h <;> subst h <;>
    (unfold seedInside insideEllipse seed_rx seed_ry; norm_num [SCALE_eq])

/-! ## Claim C3: the output image -/

/-- The in-memory image: dimensions from `Image.new('RGBA', (SIZE, SIZE), ...)`
and the pixel contents after all drawing operations. -/
structure Icon where
  width : ℕ
  height : ℕ
  pixel : ℝ × ℝ → Color

noncomputable def img : Icon := ⟨SIZE, SIZE, finalCanvas⟩

/-- C3: the final image is exactly 1024 x 1024; its pixel at canvas
coordinate (0,0) equals the background color (255,248,225,255), and its
pixel at the scaled body center (54*SCALE, 56*SCALE) equals the strawberry
body color (233,30,99,255). -/
theorem claim3_end_to_end :
    img.width = 1024 ∧ img.height = 1024 ∧
    img.pixel (0, 0) = background ∧
    img.pixel (54 * SCALE, 56 * SCALE) = strawberry_color := by
  refine ⟨rfl, rfl, ?_, ?_⟩
  · show finalCanvas (0, 0) = background
    unfold finalCanvas
    rw [foldl_fill_skip notInSeeds_00]
    unfold canvas_stem
    rw [fill_neg notInStem_00]
    unfold canvas_leafR
    rw [fill_neg notInLeafR_00]
    unfold canvas_leafL
    rw [fill_neg notInLeafL_00]
    unfold canvas_body
    rw [fill_neg notInBody_00]
    rfl
  · show finalCanvas (54 * SCALE, 56 * SCALE) = strawberry_color
    unfold finalCanvas
    rw [foldl_fill_skip notInSeeds_center]
    unfold canvas_stem
    rw [fill_neg notInStem_center]
    unfold canvas_leafR
    rw [fill_neg notInLeafR_center]
    unfold canvas_leafL
    rw [fill_neg notInLeafL_center]
    unfold canvas_body
    rw [fill_pos inBody_center]

/-! ## Claim C7: seed ellipse containment -/

lemma insideEllipse_center {cx0 cy0 rx0 ry0 : ℝ} {p : ℝ × ℝ}
    (h : insideEllipse (cx0 - rx0) (cy0 - ry0) (cx0 + rx0) (cy0 + ry0) p)
    (hrx : 0 < rx0) (hry : 0 < ry0) :
    |p.1 - cx0| ≤ rx0 ∧ |p.2 - cy0| ≤ ry0 := by
  unfold insideEllipse at h
  have e1 : (cx0 - rx0 + (cx0 + rx0)) / 2 = cx0 := by ring
  have e2 : (cx0 + rx0 - (cx0 - rx0)) / 2 = rx0 := by ring
  have e3 : (cy0 - ry0 + (cy0 + ry0)) / 2 = cy0 := by ring
  have e4 : (cy0 + ry0 - (cy0 - ry0)) / 2 = ry0 := by ring
  rw [e1, e2, e3, e4] at h
  have hx : (p.1 - cx0) ^ 2 ≤ rx0 ^ 2 := by
    have hsq : ((p.1 - cx0) / rx0) ^ 2 ≤ 1 := by
      nlinarith [sq_nonneg ((p.2 - cy0) / ry0)]
    rw [div_pow, div_le_one (by positivity)] at hsq
    exact hsq
  have hy : (p.2 - cy0) ^ 2 ≤ ry0 ^ 2 := by
    have hsq : ((p.2 - cy0) / ry0) ^ 2 ≤ 1 := by
      nlinarith [sq_nonneg ((p.1 - cx0) / rx0)]
    rw [div_pow, div_le_one (by positivity)] at hsq
    exact hsq
  constructor
  · exact abs_le.2 ⟨by nlinarith, by nlinarith⟩
  · exact abs_le.2 ⟨by nlinarith, by nlinarith⟩

/-- C7: each of the eight seeds, centered at logical (sx, sy), is drawn at
pixel center (sx*SCALE, sy*SCALE) — the midpoint of the bounding box passed
to the ellipse fill — and its filled region stays within horizontal distance
2.0*SCALE and vertical distance 2.8*SCALE of that pixel center. -/
theorem claim7_seed_containment :
    ∀ s ∈ seed_positions,
      (((s.1 : ℝ) * SCALE - seed_rx) + ((s.1 : ℝ) * SCALE + seed_rx)) / 2
          = (s.1 : ℝ) * SCALE ∧
      (((s.2 : ℝ) * SCALE - seed_ry) + ((s.2 : ℝ) * SCALE + seed_ry)) / 2
          = (s.2 : ℝ) * SCALE ∧
      ∀ p : ℝ × ℝ, seedInside s p →
        |p.1 - (s.1 : ℝ) * SCALE| ≤ 2.0 * SCALE ∧
        |p.2 - (s.2 : ℝ) * SCALE| ≤ 2.8 * SCALE := by
  intro s _
  refine ⟨by ring, by ring, ?_⟩
  intro p h
  have hS := SCALE_pos
  unfold seedInside seed_rx seed_ry at h
  exact insideEllipse_center h (by nlinarith) (by nlinarith)

/-- Witness for C7 at the seed centered at logical (54, 43) and the pixel
at its center. -/
theorem claim7_seed_containment_witness :
    ((54, 43) : ℤ × ℤ) ∈ seed_positions ∧
    |((54 * SCALE, 43 * SCALE) : ℝ × ℝ).1 - (((54, 43) : ℤ × ℤ).1 : ℝ) * SCALE| ≤ 2.0 * SCALE ∧
    |((54 * SCALE, 43 * SCALE) : ℝ × ℝ).2 - (((54, 43) : ℤ × ℤ).2 : ℝ) * SCALE| ≤ 2.8 * SCALE := by
  have hmem : ((54, 43) : ℤ × ℤ) ∈ seed_positions := by simp [seed_positions]
  have hseed : seedInside (54, 43) (54 * SCALE, 43 * SCALE) := by
    unfold seedInside insideEllipse seed_rx seed_ry
    norm_num [SCALE_eq]
  obtain ⟨-, -, hmain⟩ := claim7_seed_containment (54, 43) hmem
  exact ⟨hmem, hmain (54 * SCALE, 43 * SCALE) hseed⟩

/-! ## Claim C10: no shape is clipped by the canvas boundary -/

/-- C10: every coordinate passed to a fill operation — all 360 scaled
outline points, all leaf vertices, the stem rectangle corners, and every
seed ellipse bounding box — lies strictly inside the pixel square
(0, 1024) x (0, 1024). -/
theorem claim10_no_clipping :
    (∀ d : ℕ, d < 360 →
        0 < (pt d).1 ∧ (pt d).1 < 1024 ∧ 0 < (pt d).2 ∧ (pt d).2 < 1024) ∧
    (∀ q ∈ left_leaf, 0 < q.1 ∧ q.1 < 1024 ∧ 0 < q.2 ∧ q.2 < 1024) ∧
    (∀ q ∈ right_leaf, 0 < q.1 ∧ q.1 < 1024 ∧ 0 < q.2 ∧ q.2 < 1024) ∧
    ((0:ℝ) < 53 * SCALE ∧ 55 * SCALE < 1024 ∧ (0:ℝ) < 23 * SCALE ∧ 29 * SCALE < 1024) ∧
    (∀ s ∈ seed_positions,
        0 < (s.1 : ℝ) * SCALE - seed_rx ∧ (s.1 : ℝ) * SCALE + seed_rx < 1024 ∧
        0 < (s.2 : ℝ) * SCALE - seed_ry ∧ (s.2 : ℝ) * SCALE + seed_ry < 1024) := by
  refine ⟨?_, ?_, ?_, ?_, ?_⟩
  · intro d _
    set t := radians d with ht
    have hfc0 : (0:ℝ) ≤ 1 + Real.cos t := by nlinarith [Real.neg_one_le_cos t]
    have hfc0' : (0:ℝ) ≤ 1 - Real.cos t := by nlinarith [Real.cos_le_one t]
    have hfc1 : -1 ≤ factor t * Real.cos t := by
      nlinarith [factor_le_one t, mul_nonneg (factor_nonneg t) hfc0]
    have hfc2 : factor t * Real.cos t ≤ 1 := by
      nlinarith [factor_le_one t, mul_nonneg (factor_nonneg t) hfc0']
    refine ⟨?_, ?_, ?_, ?_⟩
    · rw [pt_fst, SCALE_eq]
      nlinarith
    · rw [pt_fst, SCALE_eq]
      nlinarith
    · rw [pt_snd, SCALE_eq]
      nlinarith [Real.neg_one_le_sin t]
    · rw [pt_snd, SCALE_eq]
      nlinarith [Real.sin_le_one t]
  · intro q hq
    simp only [left_leaf, List.mem_cons, List.not_mem_nil, or_false] at hq
    rcases hq with h | h | h | h | h <;> subst h <;> norm_num [scaled, SCALE_eq]
  · intro q hq
    simp only [right_leaf, List.mem_cons, List.not_mem_nil, or_false] at hq
    rcases hq with h | h | h | h | h <;> subst h <;> norm_num [scaled, SCALE_eq]
  · norm_num [SCALE_eq]
  · intro s hs
    simp only [seed_positions, List.mem_cons, List.not_mem_nil, or_false] at hs
    rcases hs with h | h | h | h | h | h | h | h <;> subst h <;>
      norm_num [seed_rx, seed_ry, SCALE_eq]

/-- Witness for C10 at degree 0, the first vertex of each leaf, and the
first seed. -/
theorem claim10_no_clipping_witness :
    (0 < (pt 0).1 ∧ (pt 0).1 < 1024 ∧ 0 < (pt 0).2 ∧ (pt 0).2 < 1024) ∧
    (0 < (scaled 54 29).1 ∧ (scaled 54 29).1 < 1024 ∧
      0 < (scaled 54 29).2 ∧ (scaled 54 29).2 < 1024) ∧
    (0 < (((44, 48) : ℤ × ℤ).1 : ℝ) * SCALE - seed_rx ∧
      (((44, 48) : ℤ × ℤ).1 : ℝ) * SCALE + seed_rx < 1024 ∧
      0 < (((44, 48) : ℤ × ℤ).2 : ℝ) * SCALE - seed_ry ∧
      (((44, 48) : ℤ × ℤ).2 : ℝ) * SCALE + seed_ry < 1024) :=
  ⟨claim10_no_clipping.1 0 (by norm_num),
   claim10_no_clipping.2.1 (scaled 54 29) (by simp [left_leaf]),
   claim10_no_clipping.2.2.2.2 (44, 48) (by simp [seed_positions])⟩

/-! ## Claim C8: determinism -/

/-- Modelled from the spec: one run of the generator, as a function of an
arbitrary external environment. The script reads no command-line arguments,
no environment variables, no files and no randomness, so the canvas a run
produces does not depend on the environment value. -/
noncomputable def renderRun {Env : Type} (_env : Env) : ℝ × ℝ → Color :=
  finalCanvas

/-- C8: the generator is deterministic — two runs with unchanged constants
produce the same canvas, and hence the same encoded bytes under any
(deterministic) PNG encoder; the output is a pure function of the
compile-time constants with no dependence on external input. -/
theorem claim8_deterministic :
    ∀ (Env : Type) (e1 e2 : Env) (encodePNG : (ℝ × ℝ → Color) → List ℕ),
      renderRun e1 = renderRun e2 ∧
      encodePNG (renderRun e1) = encodePNG (renderRun e2) := by
  intro Env e1 e2 encodePNG
  exact ⟨rfl, rfl⟩

/-- Witness for C8 with a unit environment and the empty encoder. -/
theorem claim8_deterministic_witness :
    renderRun () = renderRun () ∧
    (fun _ : ℝ × ℝ → Color => ([] : List ℕ)) (renderRun ()) =
      (fun _ : ℝ × ℝ → Color => ([] : List ℕ)) (renderRun ()) :=
  claim8_deterministic Unit () () fun _ => []

/-! ## Claim C9: save and confirmation behavior (lines 74-76) -/

def output_path : String :=
  "C:\\Users\\Y\\Documents\\ichigo_apple\\Ichigo\\Resources\\AppIcon.png"

/-- Modelled from the spec: the effect of the final two statements
(`img.save(output_path, 'PNG')` then `print(...)`). The save either
succeeds or raises an I/O error; the script installs no handler, so on
an error the confirmation print never runs and the error propagates,
terminating the run. On success exactly one confirmation line containing
the output path is printed. -/
def runScript (ε : Type) (saveOutcome : Except ε Unit) : Except ε (List String) :=
  match saveOutcome with
  | Except.ok _ => Except.ok ["Icon saved to " ++ output_path]
  | Except.error e => Except.error e

/-- C9: the program prints exactly one confirmation line containing the
output path if and only if the save succeeds; a failing save propagates
its error uncaught (no handler, no retry) and no confirmation is printed. -/
theorem claim9_error_handling :
    ∀ (ε : Type) (o : Except ε Unit),
      ((∃ lines, runScript ε o = Except.ok lines ∧
          lines = ["Icon saved to " ++ output_path] ∧ lines.length = 1) ↔
        o = Except.ok ()) ∧
      (∀ e : ε, o = Except.error e → runScript ε o = Except.error e) := by
  intro ε o
  constructor
  · constructor
    · rintro ⟨lines, h1, -, -⟩
      cases o with
      | ok u => cases u; rfl
      | error e => simp [runScript] at h1
    · rintro rfl
      exact ⟨_, rfl, rfl, rfl⟩
  · rintro e rfl
    rfl

/-- Witness for C9 with a string error type: a failed save propagates the
error, a successful save prints the single confirmation line. -/
theorem claim9_error_handling_witness :
    runScript String (Except.error "disk full") = Except.error "disk full" ∧
    (∃ lines, runScript String (Except.ok ()) = Except.ok lines ∧
      lines = ["Icon saved to " ++ output_path] ∧ lines.length = 1) :=
  ⟨(claim9_error_handling String (Except.error "disk full")).2 "disk full" rfl,
   (claim9_error_handling String (Except.ok ())).1.2 rfl⟩

end IchigoApple
